import Mathlib

/-!
Verification development for the ESP32-MMC-Manager firmware core
(`src/ESP32FileManager.h`): the command dispatcher, the quoted-path
extraction helper, and the non-blocking chunked PUTFILE upload state
machine, shallowly embedded in Lean.

Commands are modelled as `List Char` (Arduino `String`).  Time
(`millis()`) and serial availability are supplied per loop iteration by
a `Tick`; the storage backend is an oracle (`FS`); every observable
action (serial line, raw write, filesystem call, keep-alive firing) is
recorded in an event trace.
-/

namespace ESP32FM

/-- Characters treated as whitespace by `isspace` (used by `String::trim`). -/
def isSpaceCh (c : Char) : Bool :=
  c == ' ' || c == '\t' || c == '\n' || c == '\r' ||
  c == Char.ofNat 11 || c == Char.ofNat 12

/-- Arduino `String::trim`: strip leading and trailing whitespace. -/
def trimChars (l : List Char) : List Char :=
  ((l.dropWhile isSpaceCh).reverse.dropWhile isSpaceCh).reverse

/-- Index of the first occurrence of `ch` in `l`, if any. -/
def firstIdx (ch : Char) : List Char → Option Nat
  | [] => none
  | c :: cs => if c = ch then some 0 else (firstIdx ch cs).map (· + 1)

/-- Arduino `String::indexOf(ch, fromIndex)`: absolute index of the first
occurrence of `ch` at position `≥ start`, or `-1` when there is none. -/
def idxOf (s : List Char) (ch : Char) (start : Nat) : Int :=
  match firstIdx ch (s.drop start) with
  | none => -1
  | some i => ((start + i : Nat) : Int)

/-- Arduino `String::lastIndexOf(ch)`: index of the last occurrence of
`ch`, or `-1`. -/
def lastIdxOf (s : List Char) (ch : Char) : Int :=
  match firstIdx ch s.reverse with
  | none => -1
  | some i => ((s.length - 1 - i : Nat) : Int)

/-- Arduino `String::substring(left, right)`: swaps the bounds when
`left > right`, clamps `right` to the length, and yields the character
range `[left, right)`. -/
def substringFT (s : List Char) (left right : Nat) : List Char :=
  let l := min left right
  let r := max left right
  (s.take (min r s.length)).drop l

/-- The `getPath` lambda of `handleFileManager` (source lines 76-82):
extract a possibly-quoted path argument from the command line starting
at offset `start`. -/
def getPath (c : List Char) (start : Nat) : List Char :=
  let q1 := idxOf c '"' start
  if q1 = -1 then substringFT c start c.length
  else
    let q2 := idxOf c '"' (q1.toNat + 1)
    let q2c := if q2 = -1 then (c.length : Int) else q2
    substringFT c (q1.toNat + 1) q2c.toNat

/-- The path-extraction contract in the spec's words: if a double-quote
occurs at or after the offset, the substring strictly between that quote
and the next double-quote, or between that quote and end-of-line when no
closing quote exists; otherwise the remainder of the line from the
offset. -/
def getPathSpec (c : List Char) (start : Nat) : List Char :=
  match firstIdx '"' (c.drop start) with
  | none => c.drop start
  | some i =>
    let p := start + i
    match firstIdx '"' (c.drop (p + 1)) with
    | none => c.drop (p + 1)
    | some j => (c.take (p + 1 + j)).drop (p + 1)

theorem firstIdx_lt_length {ch : Char} : ∀ {l : List Char} {i : Nat},
    firstIdx ch l = some i → i < l.length := by
  intro l
  induction l with
  | nil => intro i h; simp [firstIdx] at h
  | cons c cs ih =>
    intro i h
    simp only [firstIdx] at h
    split at h
    · simp only [Option.some.injEq] at h
      simp
      omega
    · cases hcs : firstIdx ch cs with
      | none => rw [hcs] at h; simp at h
      | some j =>
        rw [hcs] at h
        simp at h
        have := ih hcs
        simp
        omega

theorem substringFT_drop (s : List Char) (a : Nat) :
    substringFT s a s.length = s.drop a := by
  unfold substringFT
  rcases Nat.le_total a s.length with h | h
  · simp [Nat.min_eq_left h, Nat.max_eq_right h]
  · simp [Nat.min_eq_right h, Nat.max_eq_left h, List.drop_eq_nil_of_le h,
      List.drop_eq_nil_of_le (List.length_take_le _ _)]

theorem substringFT_of_le (s : List Char) (a b : Nat) (hab : a ≤ b)
    (hb : b ≤ s.length) : substringFT s a b = (s.take b).drop a := by
  unfold substringFT
  simp [Nat.min_eq_left hab, Nat.max_eq_right hab, Nat.min_eq_left hb]

/-- Claim C4: for every raw command line and starting offset, the
path-extraction function (`getPath`, source lines 76-82) returns: if a
double-quote occurs at or after the offset, the substring strictly
between that quote and the next double-quote, or between that quote and
end-of-line when no closing quote exists (tolerated, not an error);
otherwise the remainder of the line from the offset.  Stated as
extensional equality with `getPathSpec`, the contract transcribed from
the specification. -/
theorem claim_C4 (c : List Char) (start : Nat) :
    getPath c start = getPathSpec c start := by
  unfold getPath getPathSpec idxOf
  cases h1 : firstIdx '"' (c.drop start) with
  | none => simp [substringFT_drop]
  | some i =>
    have hi : i < (c.drop start).length := firstIdx_lt_length h1
    have hip : start + i < c.length := by
      rw [List.length_drop] at hi; omega
    have hne : ((start + i : Nat) : Int) ≠ -1 := by omega
    simp only [hne, if_false]
    have htn : (((start + i : Nat) : Int)).toNat = start + i := by omega
    rw [htn]
    cases h2 : firstIdx '"' (c.drop (start + i + 1)) with
    | none =>
      simp only []
      have : substringFT c (start + i + 1) ((c.length : Int)).toNat
          = c.drop (start + i + 1) := by
        have : ((c.length : Int)).toNat = c.length := by omega
        rw [this, substringFT_drop]
      simpa using this
    | some j =>
      have hj : j < (c.drop (start + i + 1)).length := firstIdx_lt_length h2
      have hjp : start + i + 1 + j < c.length := by
        rw [List.length_drop] at hj; omega
      have hne2 : ((start + i + 1 + j : Nat) : Int) ≠ -1 := by omega
      simp only [hne2, if_false]
      have htn2 : (((start + i + 1 + j : Nat) : Int)).toNat = start + i + 1 + j := by
        omega
      rw [htn2, substringFT_of_le c _ _ (by omega) (by omega)]

/-- Arduino `String::toInt` (`atol`): skip leading whitespace, optional
sign, then consume decimal digits; no digits yields `0`. -/
def digitsVal (l : List Char) : Int :=
  l.foldl (fun a c => a * 10 + ((c.toNat : Int) - 48)) 0

def atol (l : List Char) : Int :=
  let l1 := l.dropWhile isSpaceCh
  match l1 with
  | '-' :: rest => -(digitsVal (rest.takeWhile Char.isDigit))
  | '+' :: rest => digitsVal (rest.takeWhile Char.isDigit)
  | _ => digitsVal (l1.takeWhile Char.isDigit)

/-- One re-entry of the engine's receive loop: `avail` is what
`Serial.available()` reports and `now` the value of `millis()` during
this iteration (real time is monotone across iterations). -/
structure Tick where
  avail : Nat
  now : Nat
deriving DecidableEq, Repr

/-- Observable actions: serial text lines (`println`/`printf`), a serial
flush, raw binary writes, keep-alive callback firings, and calls into
the storage backend. -/
inductive Ev where
  | line (s : String)
  | flush
  | writeB (n : Nat)
  | keepAlive
  | fsMkdir (p : List Char)
  | fsRmdir (p : List Char)
  | fsRemove (p : List Char)
  | fsRename (src dst : List Char)
  | fsListDir (p : List Char)
  | closeRead
deriving DecidableEq, Repr

def isKA : Ev → Bool
  | .keepAlive => true
  | _ => false

/-- Serial text lines of a trace. -/
def linesOf (evs : List Ev) : List String :=
  evs.filterMap fun e => match e with | .line s => some s | _ => none

/-- Raw binary writes of a trace. -/
def writesOf (evs : List Ev) : List Nat :=
  evs.filterMap fun e => match e with | .writeB n => some n | _ => none

/-- The persistent fields of `ESP32FileManager` relevant to the upload
state machine, plus a model of the open destination file (`_putFile`):
whether it is open and how many bytes have been written into it. -/
structure MgrState where
  putActive : Bool
  putSize : Int
  putReceived : Int
  putChunkPos : Int
  putLastData : Nat
  lastKeepAlive : Nat
  fileOpen : Bool
  fileWritten : Int
deriving DecidableEq, Repr

/-- Storage backend oracle (`SD_MMC`).  Results of `mkdir`/`rmdir` are
part of the oracle even though the firmware never inspects them. -/
structure FS where
  totalBytes : Nat
  usedBytes : Nat
  mkdirOk : List Char → Bool
  rmdirOk : List Char → Bool
  openWriteOk : List Char → Bool
  openReadOk : List Char → Bool
  isDir : List Char → Bool
  fileSize : List Char → Nat
  removeOk : List Char → Bool
  renameOk : List Char → List Char → Bool

/-- `PUT_CHUNK` (source line 210). -/
def PUT_CHUNK : Int := 4096

/-- `min(PUT_CHUNK, remaining)` as computed at source lines 226-227. -/
def chunkWant (s : MgrState) : Int :=
  if s.putSize - s.putReceived > PUT_CHUNK then PUT_CHUNK
  else s.putSize - s.putReceived

/-- Read phase of one `_handlePutData` iteration (source lines 229-239):
drain the currently available bytes into the chunk buffer, capped at the
chunk's remaining capacity; on any progress record the time of last
data.  `Serial.readBytes` returns the requested count here because at
least `avail` bytes are buffered. -/
def putRead (s : MgrState) (t : Tick) : MgrState :=
  if 0 < t.avail then
    let toRead : Int :=
      if (t.avail : Int) > chunkWant s - s.putChunkPos then
        chunkWant s - s.putChunkPos
      else (t.avail : Int)
    let got := toRead
    if 0 < got then
      { s with putChunkPos := s.putChunkPos + got, putLastData := t.now }
    else s
  else s

/-- Keep-alive phase (source lines 244-247): when a callback is
registered and 200 ms have passed since it last fired, invoke it and
reset the cadence timer. -/
def putKA (ka : Bool) (s : MgrState) (t : Tick) : MgrState × List Ev :=
  if ka && decide (200 ≤ t.now - s.lastKeepAlive) then
    ({ s with lastKeepAlive := t.now }, [.keepAlive])
  else (s, [])

/-- One iteration of the `while (_putActive)` body of `_handlePutData`
(source lines 225-269): the read phase, the keep-alive phase, then
either commit a completed chunk (emitting `NEXT`, or `OK`/`DONE` on full
receipt) or abort on the 10 s inactivity timeout.  The chunk budget
(`chunkWant`) depends only on the declared size and the committed count,
which the first two phases never modify, so computing it after them
equals the source's computing it first. -/
def putStep (ka : Bool) (s : MgrState) (t : Tick) : MgrState × List Ev :=
  let p := putKA ka (putRead s t) t
  let s2 := p.1
  if chunkWant s2 ≤ s2.putChunkPos then
    let s3 := { s2 with
      fileWritten := s2.fileWritten + s2.putChunkPos,
      putReceived := s2.putReceived + s2.putChunkPos,
      putChunkPos := 0 }
    if s3.putSize ≤ s3.putReceived then
      ({ s3 with fileOpen := false, putActive := false },
       p.2 ++ [.line "OK", .line "DONE"])
    else (s3, p.2 ++ [.line "NEXT"])
  else if 10000 < t.now - s2.putLastData then
    ({ s2 with fileOpen := false, putActive := false },
     p.2 ++ [.line "ERROR", .line "DONE"])
  else (s2, p.2)

/-- `_handlePutData`: iterate `putStep` while `_putActive` holds, one
`Tick` per iteration. -/
def putLoop (ka : Bool) (s : MgrState) : List Tick → MgrState × List Ev
  | [] => (s, [])
  | t :: ts =>
    if s.putActive then
      let p1 := putStep ka s t
      let p2 := putLoop ka p1.1 ts
      (p2.1, p1.2 ++ p2.2)
    else (s, [])

/-- The GETDATA streaming loop (source lines 152-162): while bytes
remain, read up to 1024, write them raw to serial, and service the
keep-alive cadence (`lastKA` advances on cadence even when no callback
is registered; the callback itself fires only when registered). -/
def getDataLoop (ka : Bool) (lastKA rem : Nat) : List Nat → List Ev
  | [] => []
  | tk :: ts =>
    if 0 < rem then
      let len := min 1024 rem
      let fire := decide (200 ≤ tk - lastKA)
      (.writeB len :: (if fire && ka then [Ev.keepAlive] else []))
        ++ getDataLoop ka (if fire then tk else lastKA) (rem - len) ts
    else []

def ensureSlash (p : List Char) : List Char :=
  if ['/'].isPrefixOf p then p else '/' :: p

/-- The four quote positions probed by the RENAME branch
(source lines 182-185). -/
def renameQuotes (cmd : List Char) : Int × Int × Int × Int :=
  let q1 := idxOf cmd '"' 0
  let q2 := idxOf cmd '"' (q1 + 1).toNat
  let q3 := idxOf cmd '"' (q2 + 1).toNat
  let q4 := idxOf cmd '"' (q3 + 1).toNat
  (q1, q2, q3, q4)

/-- The dispatch chain of `handleFileManager` (source lines 84-203),
applied to a trimmed, nonempty command line while no upload is active.
`t0` is `millis()` at dispatch time; `ticks` supplies the iterations of
any transfer loop entered by the command. -/
def dispatchCmd (fs : FS) (ka : Bool) (t0 : Nat) (ticks : List Tick)
    (cmd : List Char) (s : MgrState) : MgrState × List Ev :=
  if cmd = "STORAGE".toList then
    (s, [.line ("TOTAL:" ++ toString fs.totalBytes ++ " FREE:"
          ++ toString (fs.totalBytes - fs.usedBytes)), .line "DONE"])
  else if "LIST ".toList.isPrefixOf cmd then
    (s, [.fsListDir (getPath cmd 5), .line "DONE"])
  else if "CREATE_DIR ".toList.isPrefixOf cmd then
    (s, [.fsMkdir (getPath cmd 11), .line "DIR created", .line "DONE"])
  else if "PUTFILE ".toList.isPrefixOf cmd then
    let lastSpace := lastIdxOf cmd ' '
    if lastSpace ≤ 8 then (s, [.line "ERROR", .line "DONE"])
    else
      let path := getPath cmd 8
      let sz := atol (cmd.drop (lastSpace.toNat + 1))
      if fs.openWriteOk path then
        let s1 : MgrState := { s with
          putSize := sz, putReceived := 0, putChunkPos := 0,
          putLastData := t0, putActive := true, lastKeepAlive := t0,
          fileOpen := true, fileWritten := 0 }
        let p := putLoop ka s1 ticks
        (p.1, [.line ("READY " ++ toString PUT_CHUNK), .flush] ++ p.2)
      else ({ s with putSize := sz }, [.line "ERROR", .line "DONE"])
  else if "GETSIZE ".toList.isPrefixOf cmd then
    let path := getPath cmd 8
    if !fs.openReadOk path || fs.isDir path then
      (s, [.line "ERROR", .line "DONE"])
    else
      (s, [.line ("SIZE:" ++ toString (fs.fileSize path)), .closeRead,
           .line "DONE"])
  else if "GETDATA ".toList.isPrefixOf cmd then
    let path := getPath cmd 8
    if !fs.openReadOk path then (s, [])
    else if fs.isDir path then (s, [.closeRead])
    else (s, getDataLoop ka t0 (fs.fileSize path) (ticks.map Tick.now)
              ++ [.closeRead])
  else if "DELETE ".toList.isPrefixOf cmd then
    let path := getPath cmd 7
    (s, [.fsRemove path,
         .line (if fs.removeOk path then "DELETED" else "ERROR"),
         .line "DONE"])
  else if "REMOVE_DIR ".toList.isPrefixOf cmd then
    (s, [.fsRmdir (getPath cmd 11), .line "REMOVED", .line "DONE"])
  else if "RENAME ".toList.isPrefixOf cmd then
    let q := renameQuotes cmd
    if q.1 = -1 ∨ q.2.1 = -1 ∨ q.2.2.1 = -1 ∨ q.2.2.2 = -1 then
      (s, [.line "ERROR", .line "DONE"])
    else
      let src := ensureSlash (substringFT cmd (q.1 + 1).toNat q.2.1.toNat)
      let dst := ensureSlash (substringFT cmd (q.2.2.1 + 1).toNat q.2.2.2.toNat)
      (s, [.fsRename src dst,
           .line (if fs.renameOk src dst then "RENAMED" else "ERROR"),
           .line "DONE"])
  else (s, [])

/-- `handleFileManager` (source lines 62-204): delegate to the upload
state machine when a transfer is active; otherwise read one line (when
available), trim it, and dispatch. -/
def handleFileManager (fs : FS) (ka : Bool) (inp : Option (List Char))
    (t0 : Nat) (ticks : List Tick) (s : MgrState) : MgrState × List Ev :=
  if s.putActive then putLoop ka s ticks
  else
    match inp with
    | none => (s, [])
    | some l =>
      let cmd := trimChars l
      if cmd = [] then (s, [])
      else dispatchCmd fs ka t0 ticks cmd s

/-- Number of occurrences of `ch` in a line. -/
def countCh (ch : Char) : List Char → Nat
  | [] => 0
  | c :: cs => (if c = ch then 1 else 0) + countCh ch cs

theorem firstIdx_none_count {ch : Char} : ∀ {l : List Char},
    firstIdx ch l = none → countCh ch l = 0 := by
  intro l
  induction l with
  | nil => intro; rfl
  | cons c cs ih =>
    intro h
    simp only [firstIdx] at h
    by_cases hc : c = ch
    · rw [if_pos hc] at h; simp at h
    · rw [if_neg hc] at h
      cases hcs : firstIdx ch cs with
      | none => simp [countCh, hc, ih hcs]
      | some j => rw [hcs] at h; simp at h

theorem firstIdx_some_count {ch : Char} : ∀ {l : List Char} {i : Nat},
    firstIdx ch l = some i →
    countCh ch l = countCh ch (l.drop (i + 1)) + 1 := by
  intro l
  induction l with
  | nil => intro i h; simp [firstIdx] at h
  | cons c cs ih =>
    intro i h
    simp only [firstIdx] at h
    by_cases hc : c = ch
    · rw [if_pos hc] at h
      simp only [Option.some.injEq] at h
      subst h
      simp [countCh, hc]
      omega
    · rw [if_neg hc] at h
      cases hcs : firstIdx ch cs with
      | none => rw [hcs] at h; simp at h
      | some j =>
        rw [hcs] at h
        simp at h
        subst h
        simp [countCh, hc, ih hcs]

theorem idxOf_of_none {s : List Char} {ch : Char} {st : Nat}
    (h : firstIdx ch (s.drop st) = none) : idxOf s ch st = -1 := by
  simp [idxOf, h]

theorem idxOf_of_some {s : List Char} {ch : Char} {st i : Nat}
    (h : firstIdx ch (s.drop st) = some i) :
    idxOf s ch st = ((st + i : Nat) : Int) := by
  simp [idxOf, h]

theorem renameQuotes_fst (cmd : List Char) :
    (renameQuotes cmd).1 = idxOf cmd '"' 0 := rfl

theorem renameQuotes_snd (cmd : List Char) :
    (renameQuotes cmd).2.1 = idxOf cmd '"' (idxOf cmd '"' 0 + 1).toNat := rfl

theorem renameQuotes_thd (cmd : List Char) :
    (renameQuotes cmd).2.2.1
      = idxOf cmd '"'
          (idxOf cmd '"' (idxOf cmd '"' 0 + 1).toNat + 1).toNat := rfl

theorem renameQuotes_fth (cmd : List Char) :
    (renameQuotes cmd).2.2.2
      = idxOf cmd '"'
          (idxOf cmd '"'
            (idxOf cmd '"' (idxOf cmd '"' 0 + 1).toNat + 1).toNat + 1).toNat := rfl

/-- The RENAME branch's quote probing fails (some `qi = -1`) exactly
when the line holds fewer than four double-quote characters. -/
theorem renameQuotes_missing_iff (cmd : List Char) :
    ((renameQuotes cmd).1 = -1 ∨ (renameQuotes cmd).2.1 = -1 ∨
     (renameQuotes cmd).2.2.1 = -1 ∨ (renameQuotes cmd).2.2.2 = -1)
    ↔ countCh '"' cmd < 4 := by
  rw [renameQuotes_fst, renameQuotes_snd, renameQuotes_thd, renameQuotes_fth]
  cases h1 : firstIdx '"' (cmd.drop 0) with
  | none =>
    have hc : countCh '"' cmd = 0 := by
      simpa using firstIdx_none_count h1
    exact iff_of_true (Or.inl (idxOf_of_none h1)) (by omega)
  | some i1 =>
    rw [idxOf_of_some h1,
      show (((0 + i1 : Nat) : Int) + 1).toNat = i1 + 1 from by omega]
    have hc1 : countCh '"' cmd = countCh '"' (cmd.drop (i1 + 1)) + 1 := by
      simpa using firstIdx_some_count h1
    cases h2 : firstIdx '"' (cmd.drop (i1 + 1)) with
    | none =>
      have hc2 := firstIdx_none_count h2
      exact iff_of_true (Or.inr (Or.inl (idxOf_of_none h2))) (by omega)
    | some i2 =>
      rw [idxOf_of_some h2,
        show (((i1 + 1 + i2 : Nat) : Int) + 1).toNat = i1 + 1 + i2 + 1 from by
          omega]
      have hc2 : countCh '"' (cmd.drop (i1 + 1))
          = countCh '"' (cmd.drop (i1 + 1 + i2 + 1)) + 1 := by
        have h := firstIdx_some_count h2
        rwa [List.drop_drop,
          show i1 + 1 + (i2 + 1) = i1 + 1 + i2 + 1 from by omega] at h
      cases h3 : firstIdx '"' (cmd.drop (i1 + 1 + i2 + 1)) with
      | none =>
        have hc3 := firstIdx_none_count h3
        exact iff_of_true (Or.inr (Or.inr (Or.inl (idxOf_of_none h3))))
          (by omega)
      | some i3 =>
        rw [idxOf_of_some h3,
          show (((i1 + 1 + i2 + 1 + i3 : Nat) : Int) + 1).toNat
              = i1 + 1 + i2 + 1 + i3 + 1 from by omega]
        have hc3 : countCh '"' (cmd.drop (i1 + 1 + i2 + 1))
            = countCh '"' (cmd.drop (i1 + 1 + i2 + 1 + i3 + 1)) + 1 := by
          have h := firstIdx_some_count h3
          rwa [List.drop_drop,
            show i1 + 1 + i2 + 1 + (i3 + 1) = i1 + 1 + i2 + 1 + i3 + 1 from by
              omega] at h
        cases h4 : firstIdx '"' (cmd.drop (i1 + 1 + i2 + 1 + i3 + 1)) with
        | none =>
          have hc4 := firstIdx_none_count h4
          exact iff_of_true
            (Or.inr (Or.inr (Or.inr (idxOf_of_none h4)))) (by omega)
        | some i4 =>
          rw [idxOf_of_some h4]
          have hc4 : countCh '"' (cmd.drop (i1 + 1 + i2 + 1 + i3 + 1))
              = countCh '"'
                  (cmd.drop (i1 + 1 + i2 + 1 + i3 + 1 + i4 + 1)) + 1 := by
            have h := firstIdx_some_count h4
            rwa [List.drop_drop,
              show i1 + 1 + i2 + 1 + i3 + 1 + (i4 + 1)
                  = i1 + 1 + i2 + 1 + i3 + 1 + i4 + 1 from by omega] at h
          exact iff_of_false (by omega) (by omega)

theorem ensureSlash_isPrefix (p : List Char) :
    ['/'].isPrefixOf (ensureSlash p) = true := by
  unfold ensureSlash
  split
  · assumption
  · simp [List.isPrefixOf]

/-- Claim C7: every CREATE_DIR command elicits `DIR created` then
`DONE`, and every REMOVE_DIR command elicits `REMOVED` then `DONE`,
with the backend `mkdir`/`rmdir` invoked fire-and-forget: the oracle
`fs` (hence the backend's boolean result) is universally quantified and
the emitted lines are the same constants for every oracle, so the
result is never inspected. -/
theorem claim_C7 (fs : FS) (ka : Bool) (t0 : Nat) (ticks : List Tick)
    (s : MgrState) (r1 r2 : List Char) :
    dispatchCmd fs ka t0 ticks ("CREATE_DIR ".toList ++ r1) s
      = (s, [.fsMkdir (getPath ("CREATE_DIR ".toList ++ r1) 11),
             .line "DIR created", .line "DONE"])
    ∧ dispatchCmd fs ka t0 ticks ("REMOVE_DIR ".toList ++ r2) s
      = (s, [.fsRmdir (getPath ("REMOVE_DIR ".toList ++ r2) 11),
             .line "REMOVED", .line "DONE"]) := by
  constructor <;> simp [dispatchCmd, List.isPrefixOf]

/-- Claim C6: a GETDATA command whose path does not open, or resolves to
a directory, emits zero bytes on the transport — no text line (hence no
error line and no `DONE` sentinel) and no raw write — closes the handle
exactly when one was opened, and leaves the dispatcher state untouched
(still Idle), so the next line read is dispatched as a fresh command. -/
theorem claim_C6 (fs : FS) (ka : Bool) (t0 : Nat) (ticks : List Tick)
    (s : MgrState) (rest : List Char)
    (hidle : s.putActive = false)
    (hbad : fs.openReadOk (getPath ("GETDATA ".toList ++ rest) 8) = false
          ∨ fs.isDir (getPath ("GETDATA ".toList ++ rest) 8) = true) :
    (dispatchCmd fs ka t0 ticks ("GETDATA ".toList ++ rest) s).1 = s
    ∧ (dispatchCmd fs ka t0 ticks ("GETDATA ".toList ++ rest) s).1.putActive = false
    ∧ linesOf (dispatchCmd fs ka t0 ticks ("GETDATA ".toList ++ rest) s).2 = []
    ∧ writesOf (dispatchCmd fs ka t0 ticks ("GETDATA ".toList ++ rest) s).2 = []
    ∧ (Ev.closeRead ∈ (dispatchCmd fs ka t0 ticks ("GETDATA ".toList ++ rest) s).2
        ↔ fs.openReadOk (getPath ("GETDATA ".toList ++ rest) 8) = true) := by
  simp only [dispatchCmd]
  rw [if_neg (by simp), if_neg (by simp [List.isPrefixOf]),
    if_neg (by simp [List.isPrefixOf]), if_neg (by simp [List.isPrefixOf]),
    if_neg (by simp [List.isPrefixOf]), if_pos (by simp [List.isPrefixOf])]
  rcases hbad with hno | hdir
  · have hno2 : fs.openReadOk
        (getPath ('G' :: 'E' :: 'T' :: 'D' :: 'A' :: 'T' :: 'A' :: ' ' :: rest) 8)
        = false := hno
    rw [if_pos (by simp [hno2])]
    simp [linesOf, writesOf, hidle, hno2]
  · have hdir2 : fs.isDir
        (getPath ('G' :: 'E' :: 'T' :: 'D' :: 'A' :: 'T' :: 'A' :: ' ' :: rest) 8)
        = true := hdir
    cases hro : fs.openReadOk
        (getPath ('G' :: 'E' :: 'T' :: 'D' :: 'A' :: 'T' :: 'A' :: ' ' :: rest) 8) with
    | false =>
      rw [if_pos (by simp [hro])]
      simp [linesOf, writesOf, hidle, hro]
    | true =>
      rw [if_neg (by simp [hro]), if_pos hdir]
      simp [linesOf, writesOf, hidle, hro]

/-- All-permissive storage oracle used by concrete witnesses. -/
def fsAll : FS :=
  ⟨1000, 400, fun _ => true, fun _ => true, fun _ => true, fun _ => true,
   fun _ => false, fun _ => 2500, fun _ => true, fun _ _ => true⟩

/-- Oracle on which no path opens for reading. -/
def fsNoRead : FS :=
  { fsAll with openReadOk := fun _ => false }

/-- Idle manager state. -/
def idle0 : MgrState := ⟨false, 0, 0, 0, 0, 0, false, 0⟩

theorem claim_C6_witness :
    (dispatchCmd fsNoRead false 0 [] ("GETDATA ".toList ++ "\"/x\"".toList) idle0).1 = idle0
    ∧ (dispatchCmd fsNoRead false 0 [] ("GETDATA ".toList ++ "\"/x\"".toList) idle0).1.putActive = false
    ∧ linesOf (dispatchCmd fsNoRead false 0 [] ("GETDATA ".toList ++ "\"/x\"".toList) idle0).2 = []
    ∧ writesOf (dispatchCmd fsNoRead false 0 [] ("GETDATA ".toList ++ "\"/x\"".toList) idle0).2 = []
    ∧ (Ev.closeRead ∈ (dispatchCmd fsNoRead false 0 [] ("GETDATA ".toList ++ "\"/x\"".toList) idle0).2
        ↔ fsNoRead.openReadOk (getPath ("GETDATA ".toList ++ "\"/x\"".toList) 8) = true) :=
  claim_C6 fsNoRead false 0 [] idle0 ("\"/x\"".toList) rfl (Or.inl rfl)

/-- Claim C5: the RENAME dispatcher emits `ERROR` then `DONE` and calls
no backend rename exactly when one of the four required double-quotes is
missing (fewer than four quote characters on the line); with all four
present it extracts the two quoted substrings, coerces each to begin
with `/`, invokes the backend rename on them, and emits `RENAMED` on
success or `ERROR` on failure, then `DONE`.  (`dispatchCmd` is a total
function, so the handler can neither crash nor hang.) -/
theorem claim_C5 (fs : FS) (ka : Bool) (t0 : Nat) (ticks : List Tick)
    (s : MgrState) (rest : List Char) :
    (countCh '"' ("RENAME ".toList ++ rest) < 4 →
      dispatchCmd fs ka t0 ticks ("RENAME ".toList ++ rest) s
        = (s, [.line "ERROR", .line "DONE"]))
    ∧ (4 ≤ countCh '"' ("RENAME ".toList ++ rest) →
      (let q := renameQuotes ("RENAME ".toList ++ rest)
       let p1 := ensureSlash (substringFT ("RENAME ".toList ++ rest)
                    (q.1 + 1).toNat q.2.1.toNat)
       let p2 := ensureSlash (substringFT ("RENAME ".toList ++ rest)
                    (q.2.2.1 + 1).toNat q.2.2.2.toNat)
       ['/'].isPrefixOf p1 = true ∧ ['/'].isPrefixOf p2 = true ∧
       dispatchCmd fs ka t0 ticks ("RENAME ".toList ++ rest) s
        = (s, [.fsRename p1 p2,
               .line (if fs.renameOk p1 p2 then "RENAMED" else "ERROR"),
               .line "DONE"]))) := by
  have hbr : ∀ out : MgrState × List Ev,
      dispatchCmd fs ka t0 ticks ("RENAME ".toList ++ rest) s = out ↔
      (let cmd := "RENAME ".toList ++ rest
       let q := renameQuotes cmd
       (if q.1 = -1 ∨ q.2.1 = -1 ∨ q.2.2.1 = -1 ∨ q.2.2.2 = -1 then
          (s, ([.line "ERROR", .line "DONE"] : List Ev))
        else
          let src := ensureSlash (substringFT cmd (q.1 + 1).toNat q.2.1.toNat)
          let dst := ensureSlash (substringFT cmd (q.2.2.1 + 1).toNat q.2.2.2.toNat)
          (s, [.fsRename src dst,
               .line (if fs.renameOk src dst then "RENAMED" else "ERROR"),
               .line "DONE"])) = out) := by
    intro out
    unfold dispatchCmd
    rw [if_neg (by simp), if_neg (by simp [List.isPrefixOf]),
      if_neg (by simp [List.isPrefixOf]), if_neg (by simp [List.isPrefixOf]),
      if_neg (by simp [List.isPrefixOf]), if_neg (by simp [List.isPrefixOf]),
      if_neg (by simp [List.isPrefixOf]), if_neg (by simp [List.isPrefixOf]),
      if_pos (by simp [List.isPrefixOf])]
  constructor
  · intro hcnt
    rw [hbr]
    simp only []
    rw [if_pos ((renameQuotes_missing_iff _).mpr hcnt)]
  · intro hcnt
    have hq : ¬((renameQuotes ("RENAME ".toList ++ rest)).1 = -1 ∨
        (renameQuotes ("RENAME ".toList ++ rest)).2.1 = -1 ∨
        (renameQuotes ("RENAME ".toList ++ rest)).2.2.1 = -1 ∨
        (renameQuotes ("RENAME ".toList ++ rest)).2.2.2 = -1) := by
      rw [renameQuotes_missing_iff]
      omega
    refine ⟨ensureSlash_isPrefix _, ensureSlash_isPrefix _, ?_⟩
    rw [hbr]
    simp only []
    rw [if_neg hq]

theorem claim_C5_witness :
    4 ≤ countCh '"' ("RENAME ".toList ++ "\"a b\" \"/c\"".toList)
    ∧ dispatchCmd fsAll false 0 [] ("RENAME ".toList ++ "\"a b\" \"/c\"".toList) idle0
        = (idle0, [.fsRename ['/', 'a', ' ', 'b'] ['/', 'c'],
                   .line "RENAMED", .line "DONE"]) := by
  refine ⟨by decide, ?_⟩
  have h := (claim_C5 fsAll false 0 [] idle0 ("\"a b\" \"/c\"".toList)).2 (by decide)
  exact h.2.2.trans (by decide)

theorem putLoop_inactive (ka : Bool) (s : MgrState) (l : List Tick)
    (h : s.putActive = false) : putLoop ka s l = (s, []) := by
  cases l with
  | nil => rfl
  | cons t ts => simp [putLoop, h]

/-- Evaluation of one receive-loop iteration when the declared size is
zero: nothing is read (the chunk budget is `0` even when bytes are
available), the zero-length chunk commits immediately, and the transfer
completes with `OK`/`DONE`. -/
theorem putStep_size_zero (ka : Bool) (t : Tick) (pd lk : Nat) (fo : Bool)
    (fw : Int) :
    putStep ka ⟨true, 0, 0, 0, pd, lk, fo, fw⟩ t
      = (⟨false, 0, 0, 0, pd,
          (if ka && decide (200 ≤ t.now - lk) then t.now else lk), false, fw⟩,
         (if ka && decide (200 ≤ t.now - lk) then [Ev.keepAlive] else [])
           ++ [.line "OK", .line "DONE"]) := by
  simp only [putStep, putKA, putRead, chunkWant]
  by_cases hav : 0 < t.avail <;> by_cases hk2 : 200 ≤ t.now - lk <;>
    cases ka <;> simp [PUT_CHUNK, hav, hk2]

/-- Claim C2: an upload whose declared size parses to `S = 0` completes
within the very first loop iteration, whatever that iteration's tick
holds (any `avail`, any `now`): the engine emits `READY 4096`, then `OK`
then `DONE` with no `NEXT` line, the (truncated) destination file is
closed with zero bytes written, and the state returns to Idle without
waiting for any bytes from the transport. -/
theorem claim_C2 (fs : FS) (ka : Bool) (t0 : Nat) (t : Tick) (ts : List Tick)
    (s : MgrState) (rest : List Char)
    (hidle : s.putActive = false)
    (hsp : 8 < lastIdxOf ("PUTFILE ".toList ++ rest) ' ')
    (hsz : atol (("PUTFILE ".toList ++ rest).drop
            ((lastIdxOf ("PUTFILE ".toList ++ rest) ' ').toNat + 1)) = 0)
    (hopen : fs.openWriteOk (getPath ("PUTFILE ".toList ++ rest) 8) = true) :
    (dispatchCmd fs ka t0 (t :: ts) ("PUTFILE ".toList ++ rest) s).1.putActive
        = false
    ∧ (dispatchCmd fs ka t0 (t :: ts) ("PUTFILE ".toList ++ rest) s).1.fileOpen
        = false
    ∧ (dispatchCmd fs ka t0 (t :: ts) ("PUTFILE ".toList ++ rest) s).1.fileWritten
        = 0
    ∧ linesOf (dispatchCmd fs ka t0 (t :: ts) ("PUTFILE ".toList ++ rest) s).2
        = ["READY 4096", "OK", "DONE"] := by
  unfold dispatchCmd
  rw [if_neg (by simp), if_neg (by simp [List.isPrefixOf]),
    if_neg (by simp [List.isPrefixOf]), if_pos (by simp [List.isPrefixOf]),
    if_neg (by omega)]
  simp only [hsz]
  rw [if_pos hopen]
  have hrun := putStep_size_zero ka t t0 t0 true (0 : Int)
  simp only [putLoop, show (true : Bool) = true from rfl, if_true]
  rw [show ({ s with
        putSize := 0, putReceived := 0, putChunkPos := 0,
        putLastData := t0, putActive := true, lastKeepAlive := t0,
        fileOpen := true, fileWritten := 0 } : MgrState)
      = ⟨true, 0, 0, 0, t0, t0, true, 0⟩ from rfl, hrun,
    putLoop_inactive ka _ ts rfl]
  cases hka : (ka && decide (200 ≤ t.now - t0)) <;>
    simp [hka, linesOf] <;> rfl

theorem claim_C2_witness :
    (dispatchCmd fsAll false 5 (⟨7, 6⟩ :: [])
        ("PUTFILE ".toList ++ "\"/a\" 0".toList) idle0).1.putActive = false
    ∧ (dispatchCmd fsAll false 5 (⟨7, 6⟩ :: [])
        ("PUTFILE ".toList ++ "\"/a\" 0".toList) idle0).1.fileOpen = false
    ∧ (dispatchCmd fsAll false 5 (⟨7, 6⟩ :: [])
        ("PUTFILE ".toList ++ "\"/a\" 0".toList) idle0).1.fileWritten = 0
    ∧ linesOf (dispatchCmd fsAll false 5 (⟨7, 6⟩ :: [])
        ("PUTFILE ".toList ++ "\"/a\" 0".toList) idle0).2
        = ["READY 4096", "OK", "DONE"] :=
  claim_C2 fsAll false 5 ⟨7, 6⟩ [] idle0 ("\"/a\" 0".toList) rfl
    (by decide) (by decide) rfl

/-- Evaluation of one receive-loop iteration on a quiet tick past the
inactivity threshold while the current chunk is incomplete: the
transfer aborts with `ERROR`/`DONE`, the file is closed, the state goes
inactive. -/
theorem putStep_timeout (ka : Bool) (s : MgrState) (t : Tick)
    (hpart : s.putChunkPos < chunkWant s)
    (hquiet : t.avail = 0)
    (hlate : 10000 < t.now - s.putLastData) :
    putStep ka s t
      = ({ s with
            lastKeepAlive :=
              if ka && decide (200 ≤ t.now - s.lastKeepAlive) then t.now
              else s.lastKeepAlive,
            fileOpen := false, putActive := false },
         (if ka && decide (200 ≤ t.now - s.lastKeepAlive) then [Ev.keepAlive]
          else []) ++ [.line "ERROR", .line "DONE"]) := by
  have hcw : chunkWant { s with lastKeepAlive := t.now } = chunkWant s := rfl
  simp only [putStep, putKA, putRead]
  rw [hquiet]
  by_cases hk2 : 200 ≤ t.now - s.lastKeepAlive <;> cases hkb : ka <;>
    simp [hk2, hcw, not_le.mpr hpart, hlate]

/-- Claim C3: during an active upload, an iteration in which no bytes
arrive (`avail = 0`) while the current chunk is still partially filled
and more than 10 000 ms have passed since the last received byte aborts
the transfer: the destination file is closed (leaving it truncated),
`ERROR` then `DONE` are emitted, the state returns to Idle, and the very
next invocation dispatches a fresh command normally (shown here for
`STORAGE`). -/
theorem claim_C3 (fs : FS) (ka : Bool) (s : MgrState) (t : Tick)
    (t02 : Nat) (ticks2 : List Tick)
    (hact : s.putActive = true)
    (hpart : s.putChunkPos < chunkWant s)
    (hquiet : t.avail = 0)
    (hlate : 10000 < t.now - s.putLastData) :
    (putStep ka s t).1.putActive = false
    ∧ (putStep ka s t).1.fileOpen = false
    ∧ linesOf (putStep ka s t).2 = ["ERROR", "DONE"]
    ∧ handleFileManager fs ka (some ("STORAGE".toList)) t02 ticks2
        (putStep ka s t).1
      = ((putStep ka s t).1,
         [.line ("TOTAL:" ++ toString fs.totalBytes ++ " FREE:"
            ++ toString (fs.totalBytes - fs.usedBytes)), .line "DONE"]) := by
  rw [putStep_timeout ka s t hpart hquiet hlate]
  refine ⟨rfl, rfl, ?_, ?_⟩
  · cases hb : (ka && decide (200 ≤ t.now - s.lastKeepAlive)) <;>
      simp [hb, linesOf]
  · unfold handleFileManager
    rw [if_neg (by simp)]
    have htrim : trimChars ("STORAGE".toList) = "STORAGE".toList := by decide
    simp only [htrim]
    rw [if_neg (by decide)]
    unfold dispatchCmd
    rw [if_pos rfl]

/-- Active upload state used by concrete witnesses: 5000 declared bytes,
nothing received yet. -/
def sAct : MgrState := ⟨true, 5000, 0, 0, 1, 1, true, 0⟩

theorem claim_C3_witness :
    (putStep false sAct ⟨0, 20000⟩).1.putActive = false
    ∧ (putStep false sAct ⟨0, 20000⟩).1.fileOpen = false
    ∧ linesOf (putStep false sAct ⟨0, 20000⟩).2 = ["ERROR", "DONE"]
    ∧ handleFileManager fsAll false (some ("STORAGE".toList)) 9 []
        (putStep false sAct ⟨0, 20000⟩).1
      = ((putStep false sAct ⟨0, 20000⟩).1,
         [.line ("TOTAL:" ++ toString fsAll.totalBytes ++ " FREE:"
            ++ toString (fsAll.totalBytes - fsAll.usedBytes)), .line "DONE"]) :=
  claim_C3 fsAll false sAct ⟨0, 20000⟩ 9 [] rfl (by decide) rfl (by decide)

/-- The upload byte-accounting invariant: committed bytes and the chunk
fill position are nonnegative, the fill position never exceeds the
current chunk budget, committed plus buffered bytes never exceed the
declared size, and the file holds exactly the committed bytes. -/
def Inv10 (s : MgrState) : Prop :=
  0 ≤ s.putReceived ∧ 0 ≤ s.putChunkPos ∧ s.putChunkPos ≤ chunkWant s ∧
  s.putReceived + s.putChunkPos ≤ s.putSize ∧ s.fileWritten = s.putReceived

theorem putRead_same (s : MgrState) (t : Tick) :
    (putRead s t).putActive = s.putActive
    ∧ (putRead s t).putSize = s.putSize
    ∧ (putRead s t).putReceived = s.putReceived
    ∧ (putRead s t).lastKeepAlive = s.lastKeepAlive
    ∧ (putRead s t).fileOpen = s.fileOpen
    ∧ (putRead s t).fileWritten = s.fileWritten := by
  simp only [putRead]
  split_ifs <;> simp

theorem putRead_chunk (s : MgrState) (t : Tick) (h0 : 0 ≤ s.putChunkPos)
    (hle : s.putChunkPos ≤ chunkWant s) :
    0 ≤ (putRead s t).putChunkPos
    ∧ (putRead s t).putChunkPos ≤ chunkWant s := by
  simp only [putRead]
  split_ifs <;> (try simp) <;> omega

theorem putKA_same (ka : Bool) (s : MgrState) (t : Tick) :
    (putKA ka s t).1.putActive = s.putActive
    ∧ (putKA ka s t).1.putSize = s.putSize
    ∧ (putKA ka s t).1.putReceived = s.putReceived
    ∧ (putKA ka s t).1.putChunkPos = s.putChunkPos
    ∧ (putKA ka s t).1.putLastData = s.putLastData
    ∧ (putKA ka s t).1.fileOpen = s.fileOpen
    ∧ (putKA ka s t).1.fileWritten = s.fileWritten := by
  simp only [putKA]
  split_ifs <;> simp

theorem putKA_snd (ka : Bool) (s : MgrState) (t : Tick) :
    (putKA ka s t).2 = [] ∨ (putKA ka s t).2 = [Ev.keepAlive] := by
  simp only [putKA]
  split_ifs <;> simp

theorem chunkWant_congr {s2 s : MgrState} (h1 : s2.putSize = s.putSize)
    (h2 : s2.putReceived = s.putReceived) : chunkWant s2 = chunkWant s := by
  unfold chunkWant
  rw [h1, h2]

theorem chunkWant_le_rem (s : MgrState) :
    chunkWant s ≤ s.putSize - s.putReceived := by
  unfold chunkWant PUT_CHUNK
  split_ifs <;> omega

theorem chunkWant_nonneg (s : MgrState) (h : s.putReceived ≤ s.putSize) :
    0 ≤ chunkWant s := by
  unfold chunkWant PUT_CHUNK
  split_ifs <;> omega

theorem putStep_inv (ka : Bool) (s : MgrState) (t : Tick)
    (hinv : Inv10 s) :
    Inv10 (putStep ka s t).1 ∧ (putStep ka s t).1.putSize = s.putSize ∧
    (Ev.line "OK" ∈ (putStep ka s t).2 →
      (putStep ka s t).1.fileWritten = s.putSize
        ∧ (putStep ka s t).1.putActive = false) := by
  obtain ⟨h1, h2, h3, h4, h5⟩ := hinv
  have hrc := putRead_chunk s t h2 h3
  have hrs := putRead_same s t
  have hks := putKA_same ka (putRead s t) t
  have hke := putKA_snd ka (putRead s t) t
  simp only [putStep]
  set s2 := (putKA ka (putRead s t) t).1 with hs2
  set e2 := (putKA ka (putRead s t) t).2 with he2
  obtain ⟨k1, k2, k3, k4, k5, k6, k7⟩ := hks
  obtain ⟨r1, r2, r3, r4, r5, r6⟩ := hrs
  have f_size : s2.putSize = s.putSize := k2.trans r2
  have f_recv : s2.putReceived = s.putReceived := k3.trans r3
  have f_pos0 : 0 ≤ s2.putChunkPos := by rw [k4]; exact hrc.1
  have f_posle : s2.putChunkPos ≤ chunkWant s := by rw [k4]; exact hrc.2
  have f_fw : s2.fileWritten = s.fileWritten := k7.trans r6
  have f_cwle : chunkWant s ≤ s.putSize - s.putReceived := chunkWant_le_rem s
  have hxe : s.putReceived + s2.putChunkPos ≤ s.putSize := by omega
  split_ifs with hcommit hdone htm
  · have hd : s2.putSize ≤ s2.putReceived + s2.putChunkPos := by
      simpa using hdone
    refine ⟨?_, by simp [f_size], fun hm => ⟨by (try simp); omega, by simp⟩⟩
    simp only [Inv10]
    refine ⟨by (try simp); omega, by simp, ?_, by (try simp); omega, by (try simp); omega⟩
    try simp
    exact chunkWant_nonneg _ (by (try simp); omega)
  · have hnd : ¬(s2.putSize ≤ s2.putReceived + s2.putChunkPos) := by
      simpa using hdone
    refine ⟨?_, by simp [f_size], ?_⟩
    · simp only [Inv10]
      refine ⟨by (try simp); omega, by simp, ?_, by (try simp); omega, by (try simp); omega⟩
      try simp
      exact chunkWant_nonneg _ (by (try simp); omega)
    · intro hm
      rcases hke with h | h <;> rw [h] at hm <;> simp at hm
  · refine ⟨?_, by simp [f_size], ?_⟩
    · simp only [Inv10]
      have hcx : chunkWant ({ s2 with fileOpen := false, putActive := false }
          : MgrState) = chunkWant s := (chunkWant_congr rfl rfl).trans
            (chunkWant_congr f_size f_recv)
      refine ⟨by (try simp); omega, by simpa using f_pos0, ?_, by (try simp); omega,
        by (try simp); omega⟩
      simp only [hcx]
      simpa using f_posle
    · intro hm
      rcases hke with h | h <;> rw [h] at hm <;> simp at hm
  · refine ⟨?_, f_size, ?_⟩
    · simp only [Inv10]
      have hcx : chunkWant s2 = chunkWant s := chunkWant_congr f_size f_recv
      refine ⟨by omega, f_pos0, ?_, by omega, by omega⟩
      rw [hcx]
      exact f_posle
    · intro hm
      rcases hke with h | h <;> rw [h] at hm <;> simp at hm

theorem putLoop_inv (ka : Bool) (ticks : List Tick) : ∀ s : MgrState,
    Inv10 s →
    Inv10 (putLoop ka s ticks).1 ∧ (putLoop ka s ticks).1.putSize = s.putSize ∧
    (Ev.line "OK" ∈ (putLoop ka s ticks).2 →
      (putLoop ka s ticks).1.fileWritten = s.putSize) := by
  induction ticks with
  | nil => exact fun s hinv => ⟨hinv, rfl, fun hm => absurd hm (by simp [putLoop])⟩
  | cons t ts ih =>
    intro s hinv
    by_cases hact : s.putActive = true
    · have hstep := putStep_inv ka s t hinv
      have hrec := ih (putStep ka s t).1 hstep.1
      have hlp : putLoop ka s (t :: ts)
          = ((putLoop ka (putStep ka s t).1 ts).1,
             (putStep ka s t).2 ++ (putLoop ka (putStep ka s t).1 ts).2) := by
        simp [putLoop, hact]
      rw [hlp]
      refine ⟨hrec.1, hrec.2.1.trans hstep.2.1, ?_⟩
      intro hmem
      rcases List.mem_append.mp hmem with hm1 | hm2
      · have hok := hstep.2.2 hm1
        rw [putLoop_inactive ka _ ts hok.2]
        exact hok.1
      · exact (hrec.2.2 hm2).trans hstep.2.1
    · have hact2 : s.putActive = false := by
        cases hb : s.putActive
        · rfl
        · exact absurd hb hact
      rw [putLoop_inactive ka s (t :: ts) hact2]
      exact ⟨hinv, rfl, by simp⟩

/-- Claim C10: byte-accounting invariant of the upload engine.  From any
state satisfying `Inv10` (which the PUTFILE entry state does), one loop
iteration preserves `Inv10` — in particular committed bytes plus the
chunk fill position never exceed the declared size, because each read is
capped at the chunk's remaining capacity and each chunk at the lesser of
4096 and the remaining total — and so does any run; on a run that
reports success (`OK` emitted) the destination file holds exactly the
declared number of bytes, regardless of how many bytes each tick offered
on the transport. -/
theorem claim_C10 (ka : Bool) (s : MgrState) (t : Tick) (ticks : List Tick)
    (hinv : Inv10 s) :
    (Inv10 (putStep ka s t).1
      ∧ (putStep ka s t).1.putReceived + (putStep ka s t).1.putChunkPos
          ≤ s.putSize)
    ∧ (Inv10 (putLoop ka s ticks).1
      ∧ (putLoop ka s ticks).1.putReceived + (putLoop ka s ticks).1.putChunkPos
          ≤ s.putSize
      ∧ (Ev.line "OK" ∈ (putLoop ka s ticks).2 →
          (putLoop ka s ticks).1.fileWritten = s.putSize)) := by
  have hstep := putStep_inv ka s t hinv
  have hloop := putLoop_inv ka ticks s hinv
  refine ⟨⟨hstep.1, ?_⟩, hloop.1, ?_, hloop.2.2⟩
  · have := hstep.1.2.2.2.1
    rw [hstep.2.1] at this
    exact this
  · have := hloop.1.2.2.2.1
    rw [hloop.2.1] at this
    exact this

theorem claim_C10_witness :
    Inv10 (putStep false sAct ⟨4096, 2⟩).1
    ∧ (putLoop false sAct [⟨4096, 2⟩, ⟨904, 3⟩]).1.fileWritten = 5000 := by
  have h := claim_C10 false sAct ⟨4096, 2⟩ [⟨4096, 2⟩, ⟨904, 3⟩]
    (by constructor <;> decide)
  exact ⟨h.1.1, h.2.2.2 (by decide)⟩

theorem linesOf_append (a b : List Ev) :
    linesOf (a ++ b) = linesOf a ++ linesOf b := by
  simp [linesOf]

theorem line_mem_of_linesOf {a : String} {evs : List Ev}
    (h : a ∈ linesOf evs) : Ev.line a ∈ evs := by
  simp only [linesOf, List.mem_filterMap] at h
  obtain ⟨b, hb, he⟩ := h
  cases b <;> simp_all

theorem chunkWant_le_4096 (s : MgrState) : chunkWant s ≤ 4096 := by
  unfold chunkWant PUT_CHUNK
  split_ifs <;> omega

theorem chunkWant_cases (s : MgrState) :
    chunkWant s = PUT_CHUNK ∨ chunkWant s = s.putSize - s.putReceived := by
  unfold chunkWant
  split_ifs
  · exact Or.inl rfl
  · exact Or.inr rfl

/-- Invariant of a successful upload run with declared size `S` after
`k` committed full chunks: the engine is active, exactly `4096·k` bytes
are committed, the total is not yet reached, and the chunk buffer is
within its budget. -/
def InvC1 (S : Int) (k : Nat) (s : MgrState) : Prop :=
  s.putActive = true ∧ s.putSize = S ∧ s.putReceived = 4096 * k ∧
  s.putReceived < S ∧ 0 ≤ s.putChunkPos ∧ s.putChunkPos ≤ chunkWant s

/-- One receive-loop iteration, seen through `InvC1`: either no line is
emitted and the invariant is unchanged, or a full chunk commits with
`NEXT`, or the transfer completes with `OK`/`DONE` (which pins `S`
between `4096·k` and `4096·(k+1)`), or it aborts with `ERROR`/`DONE`. -/
theorem putStep_c1 (ka : Bool) (S : Int) (k : Nat) (s : MgrState) (t : Tick)
    (hinv : InvC1 S k s) :
    (InvC1 S k (putStep ka s t).1 ∧ linesOf (putStep ka s t).2 = [])
    ∨ (InvC1 S (k + 1) (putStep ka s t).1
        ∧ linesOf (putStep ka s t).2 = ["NEXT"])
    ∨ ((putStep ka s t).1.putActive = false
        ∧ linesOf (putStep ka s t).2 = ["OK", "DONE"]
        ∧ 4096 * (k : Int) < S ∧ S ≤ 4096 * ((k : Int) + 1))
    ∨ ((putStep ka s t).1.putActive = false
        ∧ linesOf (putStep ka s t).2 = ["ERROR", "DONE"]) := by
  obtain ⟨ha, hsz, hrk, hrlt, hp0, hple⟩ := hinv
  have hpc : PUT_CHUNK = 4096 := rfl
  have hrc := putRead_chunk s t hp0 hple
  have hrs := putRead_same s t
  have hks := putKA_same ka (putRead s t) t
  have hke := putKA_snd ka (putRead s t) t
  have hcw4 := chunkWant_le_4096 s
  have hcwc := chunkWant_cases s
  simp only [putStep]
  set s2 := (putKA ka (putRead s t) t).1 with hs2
  set e2 := (putKA ka (putRead s t) t).2 with he2
  obtain ⟨k1, k2, k3, k4, k5, k6, k7⟩ := hks
  obtain ⟨r1, r2, r3, r4, r5, r6⟩ := hrs
  have f_act : s2.putActive = true := k1.trans (r1.trans ha)
  have f_size : s2.putSize = s.putSize := k2.trans r2
  have f_recv : s2.putReceived = s.putReceived := k3.trans r3
  have f_pos0 : 0 ≤ s2.putChunkPos := by rw [k4]; exact hrc.1
  have f_posle : s2.putChunkPos ≤ chunkWant s := by rw [k4]; exact hrc.2
  have f_cw : chunkWant s2 = chunkWant s := chunkWant_congr f_size f_recv
  split_ifs with hcommit hdone htm
  · refine Or.inr (Or.inr (Or.inl ⟨rfl, ?_, ?_, ?_⟩))
    · rcases hke with h | h <;> rw [h] <;> simp [linesOf]
    · omega
    · have hd : s2.putSize ≤ s2.putReceived + s2.putChunkPos := by
        simpa using hdone
      omega
  · have hnd : ¬(s2.putSize ≤ s2.putReceived + s2.putChunkPos) := by
      simpa using hdone
    have hcom : chunkWant s ≤ s2.putChunkPos := by
      rw [← f_cw]; exact hcommit
    refine Or.inr (Or.inl ⟨⟨by simpa using f_act, by simpa using f_size.trans hsz,
      by simp; omega, by simp; omega, by simp, ?_⟩, ?_⟩)
    · simp only []
      refine le_trans (by simp) (chunkWant_nonneg _ ?_)
      simp
      omega
    · rcases hke with h | h <;> rw [h] <;> simp [linesOf]
  · refine Or.inr (Or.inr (Or.inr ⟨rfl, ?_⟩))
    rcases hke with h | h <;> rw [h] <;> simp [linesOf]
  · refine Or.inl ⟨⟨f_act, f_size.trans hsz, f_recv.trans hrk, ?_, f_pos0,
      by rw [f_cw]; exact f_posle⟩, ?_⟩
    · rw [f_recv]; exact hrlt
    · rcases hke with h | h <;> rw [h] <;> simp [linesOf]

theorem putLoop_c1 (ka : Bool) (S : Int) : ∀ (ticks : List Tick) (k : Nat)
    (s : MgrState), InvC1 S k s →
    (putLoop ka s ticks).1.putActive = false →
    Ev.line "ERROR" ∉ (putLoop ka s ticks).2 →
    ∃ m : Nat, linesOf (putLoop ka s ticks).2
        = List.replicate m "NEXT" ++ ["OK", "DONE"]
      ∧ 4096 * ((k : Int) + m) < S ∧ S ≤ 4096 * ((k : Int) + m + 1) := by
  intro ticks
  induction ticks with
  | nil =>
    intro k s hinv hterm hnerr
    exact absurd (hinv.1.symm.trans hterm) (by simp)
  | cons t ts ih =>
    intro k s hinv hterm hnerr
    have hact : s.putActive = true := hinv.1
    have hsplit : putLoop ka s (t :: ts)
        = ((putLoop ka (putStep ka s t).1 ts).1,
           (putStep ka s t).2 ++ (putLoop ka (putStep ka s t).1 ts).2) := by
      simp [putLoop, hact]
    rw [hsplit] at hterm hnerr ⊢
    simp only [] at hterm
    rcases putStep_c1 ka S k s t hinv with ⟨hi, hl⟩ | ⟨hi, hl⟩ |
        ⟨hi, hl, hb1, hb2⟩ | ⟨hi, hl⟩
    · obtain ⟨m, hm, hg1, hg2⟩ := ih k _ hi hterm
        (fun hmem => hnerr (List.mem_append_right _ hmem))
      exact ⟨m, by rw [linesOf_append, hl, hm]; simp, hg1, hg2⟩
    · obtain ⟨m, hm, hg1, hg2⟩ := ih (k + 1) _ hi hterm
        (fun hmem => hnerr (List.mem_append_right _ hmem))
      refine ⟨m + 1, ?_, by push_cast; push_cast at hg1; omega,
        by push_cast; push_cast at hg2; omega⟩
      rw [linesOf_append, hl, hm]
      simp [List.replicate_succ]
    · rw [putLoop_inactive ka _ ts hi]
      exact ⟨0, by rw [linesOf_append, hl]; simp [linesOf], by simpa using hb1,
        by simpa using hb2⟩
    · exfalso
      apply hnerr
      apply List.mem_append_left
      exact line_mem_of_linesOf (by rw [hl]; simp)

/-- The upload-session state installed by a successful PUTFILE start
(source lines 122-128): active, declared size `S`, nothing received or
buffered, both timers at the command time `t0`, destination open and
empty. -/
def putEntry (S : Int) (t0 : Nat) : MgrState := ⟨true, S, 0, 0, t0, t0, true, 0⟩

/-- Claim C1: an upload of declared size `S > 0` that runs to successful
completion (the engine goes inactive without ever printing `ERROR`)
emits exactly `⌈S / 4096⌉ − 1` `NEXT` acknowledgment lines — one after
each committed chunk except the last — followed by exactly one `OK` and
the `DONE` sentinel; `(S + 4096 − 1) / 4096` is `⌈S / 4096⌉`. -/
theorem claim_C1 (ka : Bool) (S : Int) (t0 : Nat) (ticks : List Tick)
    (hS : 0 < S)
    (hterm : (putLoop ka (putEntry S t0) ticks).1.putActive = false)
    (hnerr : Ev.line "ERROR" ∉ (putLoop ka (putEntry S t0) ticks).2) :
    linesOf (putLoop ka (putEntry S t0) ticks).2
      = List.replicate ((S + 4096 - 1) / 4096 - 1).toNat "NEXT"
          ++ ["OK", "DONE"] := by
  have hinv : InvC1 S 0 (putEntry S t0) := by
    refine ⟨rfl, rfl, by simp [putEntry], by simpa [putEntry], by simp [putEntry], ?_⟩
    exact chunkWant_nonneg _ (by simp [putEntry]; omega)
  obtain ⟨m, hm, hb1, hb2⟩ := putLoop_c1 ka S ticks 0 _ hinv hterm hnerr
  have harith : ((S + 4096 - 1) / 4096 - 1).toNat = m := by
    have h1 : (m : Int) ≤ (S - 1) / 4096 := by
      rw [Int.le_ediv_iff_mul_le (by norm_num)]
      omega
    have h2 : (S - 1) / 4096 < (m : Int) + 1 := by
      rw [Int.ediv_lt_iff_lt_mul (by norm_num)]
      omega
    have h3 : (S + 4096 - 1) / 4096 = (S - 1) / 4096 + 1 := by
      have he : S + 4096 - 1 = (S - 1) + 1 * 4096 := by ring
      rw [he, Int.add_mul_ediv_right _ _ (by norm_num)]
    omega
  rw [harith]
  exact hm

theorem claim_C1_witness :
    linesOf (putLoop false (putEntry 5000 1) [⟨4096, 1⟩, ⟨904, 2⟩]).2
      = List.replicate (((5000 : Int) + 4096 - 1) / 4096 - 1).toNat "NEXT"
          ++ ["OK", "DONE"] :=
  claim_C1 false 5000 1 [⟨4096, 1⟩, ⟨904, 2⟩] (by norm_num) (by decide)
    (by decide)

/-- Replace a state's keep-alive cadence timer. -/
def setKA (s : MgrState) (v : Nat) : MgrState := { s with lastKeepAlive := v }

theorem setKA_self (s : MgrState) : setKA s s.lastKeepAlive = s := rfl

theorem setKA_chunkWant (x : MgrState) (v : Nat) :
    chunkWant (setKA x v) = chunkWant x := rfl

theorem setKA_pos (x : MgrState) (v : Nat) :
    (setKA x v).putChunkPos = x.putChunkPos := rfl

theorem setKA_lastData (x : MgrState) (v : Nat) :
    (setKA x v).putLastData = x.putLastData := rfl

theorem setKA_size (x : MgrState) (v : Nat) :
    (setKA x v).putSize = x.putSize := rfl

theorem setKA_recv (x : MgrState) (v : Nat) :
    (setKA x v).putReceived = x.putReceived := rfl

theorem setKA_fw (x : MgrState) (v : Nat) :
    (setKA x v).fileWritten = x.fileWritten := rfl

theorem setKA_active (x : MgrState) (v : Nat) :
    (setKA x v).putActive = x.putActive := rfl

theorem putRead_setKA (s : MgrState) (v : Nat) (t : Tick) :
    putRead (setKA s v) t = setKA (putRead s t) v := by
  simp only [putRead, setKA_chunkWant, setKA_pos]
  split_ifs <;> rfl

theorem putKA_false_eq (x : MgrState) (t : Tick) :
    putKA false x t = (x, []) := by
  simp [putKA]

theorem putKA_true_eq (x : MgrState) (t : Tick) :
    putKA true x t
      = if 200 ≤ t.now - x.lastKeepAlive then (setKA x t.now, [Ev.keepAlive])
        else (x, []) := by
  simp [putKA, setKA]

theorem putStep_noKA (s : MgrState) (v : Nat) (t : Tick) :
    putStep false (setKA s v) t
      = (setKA (putStep true s t).1 v,
         ((putStep true s t).2).filter (fun e => !isKA e)) := by
  simp only [putStep, putRead_setKA, putKA_false_eq, putKA_true_eq]
  by_cases hc : 200 ≤ t.now - (putRead s t).lastKeepAlive <;>
    simp only [hc, if_true, if_false, reduceIte] <;>
    simp only [setKA_chunkWant, setKA_pos, setKA_lastData, setKA_size,
      setKA_recv, setKA_fw] <;>
    split_ifs <;> rfl

theorem putLoop_noKA (ticks : List Tick) : ∀ (s : MgrState) (v : Nat),
    putLoop false (setKA s v) ticks
      = (setKA (putLoop true s ticks).1 v,
         ((putLoop true s ticks).2).filter (fun e => !isKA e)) := by
  induction ticks with
  | nil => intro s v; rfl
  | cons t ts ih =>
    intro s v
    by_cases hact : s.putActive = true
    · have hactL : (setKA s v).putActive = true := hact
      simp only [putLoop, hactL, hact, if_true]
      rw [putStep_noKA s v t, ih]
      simp [List.filter_append]
    · have hact2 : s.putActive = false := by
        cases hb : s.putActive
        · rfl
        · exact absurd hb hact
      have hactL : (setKA s v).putActive = false := hact2
      rw [putLoop_inactive false _ (t :: ts) hactL,
        putLoop_inactive true _ (t :: ts) hact2]
      rfl

theorem getDataLoop_noKA (times : List Nat) : ∀ (lastKA rem : Nat),
    getDataLoop false lastKA rem times
      = (getDataLoop true lastKA rem times).filter (fun e => !isKA e) := by
  induction times with
  | nil => intro lastKA rem; rfl
  | cons tk ts ih =>
    intro lastKA rem
    by_cases hrem : 0 < rem
    · simp only [getDataLoop, hrem, if_true]
      by_cases hf : 200 ≤ tk - lastKA <;>
        simp [hf, ih, List.filter_append, isKA]
    · simp [getDataLoop, hrem]

/-- Claim C8: the keep-alive contract.  (1) During an active upload
iteration with a registered hook, the hook fires exactly when at least
200 ms have elapsed since it last fired; (2) likewise a GETDATA
streaming iteration with bytes left fires the registered hook once
200 ms have elapsed; (3)–(4) with no hook registered, no invocation
occurs and both transfers proceed identically otherwise: the upload run
produces the same state — up to the private cadence timer, which is only
ever read by the hook logic itself — and the same events minus the
keep-alive firings, and the download run produces exactly the same
events minus the keep-alive firings. -/
theorem claim_C8 :
    (∀ (s : MgrState) (t : Tick), s.putActive = true →
      (Ev.keepAlive ∈ (putStep true s t).2 ↔ 200 ≤ t.now - s.lastKeepAlive))
    ∧ (∀ (lastKA rem tk : Nat) (ts : List Nat), 0 < rem →
        200 ≤ tk - lastKA →
        Ev.keepAlive ∈ getDataLoop true lastKA rem (tk :: ts))
    ∧ (∀ (s : MgrState) (ticks : List Tick),
        putLoop false s ticks
          = (setKA (putLoop true s ticks).1 s.lastKeepAlive,
             ((putLoop true s ticks).2).filter (fun e => !isKA e)))
    ∧ (∀ (lastKA rem : Nat) (times : List Nat),
        getDataLoop false lastKA rem times
          = (getDataLoop true lastKA rem times).filter (fun e => !isKA e)) := by
  refine ⟨?_, ?_, ?_, ?_⟩
  · intro s t hact
    have hr4 : (putRead s t).lastKeepAlive = s.lastKeepAlive :=
      (putRead_same s t).2.2.2.1
    by_cases hc : 200 ≤ t.now - s.lastKeepAlive <;>
      simp only [putStep, putKA_true_eq, hr4, hc, if_true, if_false,
        reduceIte] <;>
      split_ifs <;> simp [hc]
  · intro lastKA rem tk ts hrem hf
    simp [getDataLoop, hrem, hf]
  · intro s ticks
    have h := putLoop_noKA ticks s s.lastKeepAlive
    rwa [setKA_self] at h
  · intro lastKA rem times
    exact getDataLoop_noKA times lastKA rem

theorem claim_C8_witness :
    Ev.keepAlive ∈ (putStep true sAct ⟨0, 300⟩).2
    ∧ Ev.keepAlive ∈ getDataLoop true 0 5 [300] := by
  constructor
  · exact (claim_C8.1 sAct ⟨0, 300⟩ rfl).mpr (by decide)
  · exact claim_C8.2.1 0 5 300 [] (by decide) (by decide)

/-- Largest `millis()` value among `t0` and the ticks of `l`. -/
def maxNow (t0 : Nat) (l : List Tick) : Nat :=
  l.foldl (fun m t => max m t.now) t0

theorem maxNow_mono {a b : Nat} (l : List Tick) (h : a ≤ b) :
    maxNow a l ≤ maxNow b l := by
  induction l generalizing a b with
  | nil => exact h
  | cons t ts ih => exact ih (max_le_max h (le_refl t.now))

theorem le_maxNow (t0 : Nat) (l : List Tick) : t0 ≤ maxNow t0 l := by
  induction l generalizing t0 with
  | nil => exact le_refl t0
  | cons t ts ih => exact le_trans (Nat.le_max_left t0 t.now) (ih _)

theorem putStep_lastData (ka : Bool) (s : MgrState) (t : Tick) :
    (putStep ka s t).1.putLastData = s.putLastData
    ∨ (putStep ka s t).1.putLastData = t.now := by
  have hr : (putRead s t).putLastData = s.putLastData
      ∨ (putRead s t).putLastData = t.now := by
    simp only [putRead]
    split_ifs <;> simp
  have hk : (putKA ka (putRead s t) t).1.putLastData
      = (putRead s t).putLastData := (putKA_same ka (putRead s t) t).2.2.2.2.1
  simp only [putStep]
  split_ifs <;> simpa [hk] using hr

theorem putLoop_lastData_le (ka : Bool) (l : List Tick) : ∀ s : MgrState,
    (putLoop ka s l).1.putLastData ≤ maxNow s.putLastData l := by
  induction l with
  | nil => intro s; exact le_refl _
  | cons t ts ih =>
    intro s
    by_cases hact : s.putActive = true
    · have hlp : putLoop ka s (t :: ts)
          = ((putLoop ka (putStep ka s t).1 ts).1,
             (putStep ka s t).2 ++ (putLoop ka (putStep ka s t).1 ts).2) := by
        simp [putLoop, hact]
      rw [hlp]
      refine le_trans (ih (putStep ka s t).1) ?_
      have hs : (putStep ka s t).1.putLastData ≤ max s.putLastData t.now := by
        rcases putStep_lastData ka s t with h | h <;> omega
      exact maxNow_mono ts hs
    · have hact2 : s.putActive = false := by
        cases hb : s.putActive
        · rfl
        · exact absurd hb hact
      rw [putLoop_inactive ka s (t :: ts) hact2]
      exact le_trans (Nat.le_max_left _ _) (le_maxNow _ ts)

theorem putLoop_append (ka : Bool) (a b : List Tick) : ∀ s : MgrState,
    (putLoop ka s (a ++ b)).1 = (putLoop ka (putLoop ka s a).1 b).1 := by
  induction a with
  | nil => intro s; rfl
  | cons t ts ih =>
    intro s
    by_cases hact : s.putActive = true
    · simp [putLoop, hact, ih]
    · have hact2 : s.putActive = false := by
        cases hb : s.putActive
        · rfl
        · exact absurd hb hact
      rw [putLoop_inactive ka s ((t :: ts) ++ b) (by simpa using hact2),
        putLoop_inactive ka s (t :: ts) hact2,
        putLoop_inactive ka s b hact2]

/-- A quiet tick past the inactivity threshold either deactivates the
engine outright, or commits a pending full chunk (`NEXT`) leaving an
empty buffer, unchanged last-data time, and an unfinished total. -/
theorem putStep_quiet (ka : Bool) (s : MgrState) (t : Tick)
    (ha : t.avail = 0) (hl : 10000 < t.now - s.putLastData) :
    (putStep ka s t).1.putActive = false
    ∨ ((putStep ka s t).1.putActive = s.putActive
        ∧ (putStep ka s t).1.putChunkPos = 0
        ∧ (putStep ka s t).1.putLastData = s.putLastData
        ∧ (putStep ka s t).1.putReceived < (putStep ka s t).1.putSize) := by
  have hr : putRead s t = s := by simp [putRead, ha]
  have hks := putKA_same ka s t
  obtain ⟨k1, k2, k3, k4, k5, k6, k7⟩ := hks
  simp only [putStep, hr]
  set s2 := (putKA ka s t).1 with hs2
  split_ifs with hcommit hdone htm
  · exact Or.inl rfl
  · refine Or.inr ⟨by simpa using k1, by simp, by simpa using k5, ?_⟩
    simp at hdone ⊢
    omega
  · exact Or.inl rfl
  · rw [k5] at htm
    exact absurd hl htm

/-- Two consecutive quiet ticks past the inactivity threshold always
drive the receive loop inactive: the first either aborts (timeout) or
commits a pending full chunk, and the second then times out on the
empty, strictly-positive chunk budget. -/
theorem putLoop_two_quiet (ka : Bool) (s : MgrState) (t1 t2 : Tick)
    (ts : List Tick)
    (ha1 : t1.avail = 0) (ha2 : t2.avail = 0)
    (hl1 : 10000 < t1.now - s.putLastData)
    (hl2 : 10000 < t2.now - s.putLastData) :
    (putLoop ka s (t1 :: t2 :: ts)).1.putActive = false := by
  by_cases hact : s.putActive = true
  · have hlp : putLoop ka s (t1 :: t2 :: ts)
        = ((putLoop ka (putStep ka s t1).1 (t2 :: ts)).1,
           (putStep ka s t1).2 ++ (putLoop ka (putStep ka s t1).1 (t2 :: ts)).2) := by
      simp [putLoop, hact]
    rw [hlp]
    rcases putStep_quiet ka s t1 ha1 hl1 with h | ⟨hA, hP, hL, hR⟩
    · rw [putLoop_inactive ka _ (t2 :: ts) h]
      exact h
    · have hpart : (putStep ka s t1).1.putChunkPos
          < chunkWant (putStep ka s t1).1 := by
        rcases chunkWant_cases (putStep ka s t1).1 with h | h
        · rw [hP, h]; decide
        · rw [hP, h]; omega
      have hl2b : 10000 < t2.now - (putStep ka s t1).1.putLastData := by
        rw [hL]; exact hl2
      have hev := putStep_timeout ka (putStep ka s t1).1 t2 hpart ha2 hl2b
      have hlp2 : putLoop ka (putStep ka s t1).1 (t2 :: ts)
          = ((putLoop ka (putStep ka (putStep ka s t1).1 t2).1 ts).1,
             (putStep ka (putStep ka s t1).1 t2).2
               ++ (putLoop ka (putStep ka (putStep ka s t1).1 t2).1 ts).2) := by
        simp [putLoop, hA.trans hact]
      rw [hlp2, hev]
      rw [putLoop_inactive ka _ ts rfl]
  · have hact2 : s.putActive = false := by
      cases hb : s.putActive
      · rfl
      · exact absurd hb hact
    rw [putLoop_inactive ka s _ hact2]
    exact hact2

/-- If the tick schedule contains two consecutive quiet ticks that lie
more than the inactivity threshold beyond every earlier time (real
wall-clock time progresses), the receive loop started by PUTFILE
terminates inactive. -/
theorem putLoop_term (ka : Bool) (s1 : MgrState) (ticks : List Tick)
    (hprog : ∃ l1 t1 t2 l2, ticks = l1 ++ t1 :: t2 :: l2
        ∧ t1.avail = 0 ∧ t2.avail = 0
        ∧ 10000 + maxNow s1.putLastData l1 < t1.now
        ∧ 10000 + maxNow s1.putLastData l1 < t2.now) :
    (putLoop ka s1 ticks).1.putActive = false := by
  obtain ⟨l1, t1, t2, l2, rfl, ha1, ha2, hb1, hb2⟩ := hprog
  rw [putLoop_append ka l1 (t1 :: t2 :: l2) s1]
  have hbound := putLoop_lastData_le ka l1 s1
  exact putLoop_two_quiet ka _ t1 t2 l2 ha1 ha2 (by omega) (by omega)

set_option maxHeartbeats 1000000 in
/-- Claim C9: whenever `handleFileManager` returns, the transfer-active
flag is false (given that real time progresses, expressed as two quiet
ticks beyond the inactivity threshold somewhere in the schedule): a
PUTFILE transfer reaches a terminal outcome — success or timeout —
inside the invocation that accepted the command, because the internal
receive loop's `while (_putActive)` only exits with the flag cleared.
Consequently `isTransferActive()` observed between invocations never
returns true and the upload-delegation branch at the top of
`handleFileManager` is never taken across separate invocations. -/
theorem claim_C9 (fs : FS) (ka : Bool) (inp : Option (List Char)) (t0 : Nat)
    (ticks : List Tick) (s : MgrState)
    (hidle : s.putActive = false)
    (hprog : ∃ l1 t1 t2 l2, ticks = l1 ++ t1 :: t2 :: l2
        ∧ t1.avail = 0 ∧ t2.avail = 0
        ∧ 10000 + maxNow t0 l1 < t1.now ∧ 10000 + maxNow t0 l1 < t2.now) :
    (handleFileManager fs ka inp t0 ticks s).1.putActive = false := by
  have hterm : ∀ v : Int,
      (putLoop ka
        { s with
          putSize := v, putReceived := 0, putChunkPos := 0,
          putLastData := t0, putActive := true, lastKeepAlive := t0,
          fileOpen := true, fileWritten := 0 }
        ticks).1.putActive = false :=
    fun v => putLoop_term ka _ ticks hprog
  unfold handleFileManager
  rw [if_neg (by simp [hidle])]
  cases inp with
  | none => exact hidle
  | some l =>
    simp only []
    by_cases hemp : trimChars l = []
    · rw [if_pos hemp]
      exact hidle
    · rw [if_neg hemp]
      unfold dispatchCmd
      by_cases h1 : trimChars l = "STORAGE".toList
      · rw [if_pos h1]; exact hidle
      rw [if_neg h1]
      by_cases h2 : ("LIST ".toList.isPrefixOf (trimChars l)) = true
      · rw [if_pos h2]; exact hidle
      rw [if_neg h2]
      by_cases h3 : ("CREATE_DIR ".toList.isPrefixOf (trimChars l)) = true
      · rw [if_pos h3]; exact hidle
      rw [if_neg h3]
      by_cases h4 : ("PUTFILE ".toList.isPrefixOf (trimChars l)) = true
      · rw [if_pos h4]
        simp only []
        split_ifs <;> first | exact hidle | exact hterm _
      rw [if_neg h4]
      by_cases h5 : ("GETSIZE ".toList.isPrefixOf (trimChars l)) = true
      · rw [if_pos h5]
        simp only []
        split_ifs <;> exact hidle
      rw [if_neg h5]
      by_cases h6 : ("GETDATA ".toList.isPrefixOf (trimChars l)) = true
      · rw [if_pos h6]
        simp only []
        split_ifs <;> exact hidle
      rw [if_neg h6]
      by_cases h7 : ("DELETE ".toList.isPrefixOf (trimChars l)) = true
      · rw [if_pos h7]; exact hidle
      rw [if_neg h7]
      by_cases h8 : ("REMOVE_DIR ".toList.isPrefixOf (trimChars l)) = true
      · rw [if_pos h8]; exact hidle
      rw [if_neg h8]
      by_cases h9 : ("RENAME ".toList.isPrefixOf (trimChars l)) = true
      · rw [if_pos h9]
        simp only []
        split_ifs <;> exact hidle
      rw [if_neg h9]
      exact hidle

theorem claim_C9_witness :
    (handleFileManager fsAll false (some ("PUTFILE \"/a\" 5".toList)) 0
        [⟨0, 20000⟩, ⟨0, 20001⟩] idle0).1.putActive = false :=
  claim_C9 fsAll false _ 0 _ idle0 rfl
    ⟨[], ⟨0, 20000⟩, ⟨0, 20001⟩, [], rfl, rfl, rfl, by decide, by decide⟩

end ESP32FM
